import Mathlib

/-!
Verification of the `toolparallel` dispatch core
(`src/toolparallel/parallel_maps.py`) against its specification.

The embedding models Python values as the inductive `Value` (ints, strings,
lists, and insertion-ordered string-keyed dicts), Python exceptions as
`PyError`, and a target function as a `PyTarget`: a parameter list together
with a semantic body evaluated on a bound environment.  Function calls follow
CPython's calling convention for plain positional-or-keyword parameters:
`**`-unpacked keyword dictionaries are merged left to right and a duplicate
key raises `TypeError` ("got multiple values for keyword argument"),
positional arguments bind to the leading parameters, a keyword that re-binds
a positionally bound parameter or names no parameter raises `TypeError`, and
a parameter left unbound raises `TypeError`.

The process-pool and thread-pool executors are modelled by an explicit
completion order (an arbitrary permutation of the task indices): tasks
complete in that order and the executor reorders the completed results back
to submission order, which is exactly the ordering contract of
`multiprocessing.pool.Pool.map` and `concurrent.futures.Executor.map`.
Worker counts affect scheduling only, never results, so they are carried
through (including the `Pool(0)` / `ThreadPoolExecutor(0)` `ValueError`s)
but do not otherwise enter the semantics.  `multiprocessing.cpu_count()` is
passed in as the explicit parameter `cpu_count`.
-/

/-- A Python value: integers, strings, lists, and insertion-ordered
string-keyed dictionaries. -/
inductive Value where
  | int : Int → Value
  | str : String → Value
  | list : List Value → Value
  | dict : List (String × Value) → Value

/-- A Python exception, by class and message. -/
inductive PyError where
  | exception : String → PyError
  | notImplemented : String → PyError
  | typeError : String → PyError
  | valueError : String → PyError

/-- A Python target function: its (positional-or-keyword) parameter names and
a semantic body evaluated on the environment produced by argument binding. -/
structure PyTarget where
  params : List String
  body : List (String × Value) → Except PyError Value

/-- Look up a key in a keyword environment (first binding wins; environments
built by `bindParams` and `mergeTwo` have unique keys). -/
def lookupKw (kwargs : List (String × Value)) (k : String) : Option Value :=
  (kwargs.find? (fun p => p.1 == k)).map Prod.snd

/-- Merge one `**`-unpacked dictionary into the keyword arguments accumulated
so far.  CPython raises `TypeError` on a duplicate keyword. -/
def mergeTwo (acc : List (String × Value)) :
    List (String × Value) → Except PyError (List (String × Value))
  | [] => .ok acc
  | (k, v) :: rest =>
    if acc.any (fun p => p.1 == k) then
      .error (.typeError "got multiple values for keyword argument")
    else
      mergeTwo (acc ++ [(k, v)]) rest

/-- Merge a sequence of `**`-unpacked dictionaries appearing in a call. -/
def mergeKwargsGo (acc : List (String × Value)) :
    List (List (String × Value)) → Except PyError (List (String × Value))
  | [] => .ok acc
  | d :: ds =>
    match mergeTwo acc d with
    | .error e => .error e
    | .ok acc' => mergeKwargsGo acc' ds

/-- Build the keyword-argument dictionary of a call site from its
`**`-unpacked dictionaries. -/
def mergeKwargs (ds : List (List (String × Value))) :
    Except PyError (List (String × Value)) :=
  mergeKwargsGo [] ds

/-- CPython argument binding for plain positional-or-keyword parameters:
positional arguments bind the leading parameters, keywords bind the rest,
and the bound environment is returned in parameter order. -/
def bindParams (params : List String) (args : List Value)
    (kwargs : List (String × Value)) :
    Except PyError (List (String × Value)) :=
  if params.length < args.length then
    .error (.typeError "too many positional arguments")
  else if kwargs.any (fun p => (params.take args.length).contains p.1) then
    .error (.typeError "got multiple values for argument")
  else if kwargs.any (fun p => !params.contains p.1) then
    .error (.typeError "got an unexpected keyword argument")
  else if (params.drop args.length).any
      (fun q => !kwargs.any (fun p => p.1 == q)) then
    .error (.typeError "missing a required positional argument")
  else
    .ok ((params.take args.length).zip args ++
      (params.drop args.length).filterMap
        (fun q => (lookupKw kwargs q).map (fun v => (q, v))))

/-- Call a target function with positional arguments and a list of
`**`-unpacked keyword dictionaries. -/
def callTarget (t : PyTarget) (args : List Value)
    (starKwargs : List (List (String × Value))) : Except PyError Value :=
  match mergeKwargs starKwargs with
  | .error e => .error e
  | .ok kwargs =>
    match bindParams t.params args kwargs with
    | .error e => .error e
    | .ok env => t.body env

/-- `_f_arg(arg, f, common)`: `f(arg, **common)`. -/
def _f_arg (arg : Value) (f : PyTarget) (common : List (String × Value)) :
    Except PyError Value :=
  callTarget f [arg] [common]

/-- `_f_named_arg(arg, f, common, name)`: `f(**{name: arg}, **common)`. -/
def _f_named_arg (arg : Value) (f : PyTarget) (common : List (String × Value))
    (name : String) : Except PyError Value :=
  callTarget f [] [[(name, arg)], common]

/-- `_f_args(args, f, common)`: `f(*args, **common)`. -/
def _f_args (args : Value) (f : PyTarget) (common : List (String × Value)) :
    Except PyError Value :=
  match args with
  | .list l => callTarget f l [common]
  | _ => .error (.typeError "argument after * must be an iterable")

/-- `_f_kwargs(kwargs, f, common)`: `f(**kwargs, **common)`. -/
def _f_kwargs (kwargs : Value) (f : PyTarget) (common : List (String × Value)) :
    Except PyError Value :=
  match kwargs with
  | .dict d => callTarget f [] [d, common]
  | _ => .error (.typeError "argument after ** must be a mapping")

/-- `_wrap_f`: validate that exactly one of `arg_list` / `arg_lists` /
`kwarg_dicts` was supplied, pick the matching single-payload adapter, and if
the inputs came as a dict, split it into an index (its keys) and the payload
list (its values). -/
def _wrap_f (f : PyTarget) (arg_list : Option Value) (arg_lists : Option Value)
    (arg_name : Option String) (kwarg_dicts : Option Value)
    (common : Option (List (String × Value))) :
    Except PyError ((Value → Except PyError Value) × Value × Option (List String)) :=
  let common := common.getD []
  if ([arg_list, arg_lists, kwarg_dicts].countP Option.isNone) ≠ 2 then
    .error (.exception "must specify arg_list, arg_lists, or kwarg_dicts")
  else
    let picked : Except PyError ((Value → Except PyError Value) × Value) :=
      match arg_list, arg_name with
      | some al, Option.none => .ok (fun a => _f_arg a f common, al)
      | some al, some nm => .ok (fun a => _f_named_arg a f common nm, al)
      | Option.none, _ =>
        match arg_lists with
        | some als => .ok (fun a => _f_args a f common, als)
        | Option.none =>
          match kwarg_dicts with
          | some kd => .ok (fun a => _f_kwargs a f common, kd)
          | Option.none =>
            .error (.exception "must specify arg_list, arg_lists, or kwarg_dicts")
    match picked with
    | .error e => .error e
    | .ok (wrapped_f, inputs) =>
      match inputs with
      | .dict d => .ok (wrapped_f, .list (d.map Prod.snd), some (d.map Prod.fst))
      | _ => .ok (wrapped_f, inputs, Option.none)

/-- Python iteration over the inputs value, as performed by `pool.map`,
`executor.map` and the serial list comprehension (a dict yields its keys). -/
def pyIter : Value → Except PyError (List Value)
  | .list l => .ok l
  | .dict d => .ok (d.map (fun p => Value.str p.1))
  | _ => .error (.typeError "object is not iterable")

/-- The tasks a pool executes, in completion order: for each index in
`order` that addresses a task, the pair of the index and the task's result. -/
def poolRun (order : List Nat) (g : Value → Except PyError Value)
    (inputs : List Value) : List (Nat × Except PyError Value) :=
  order.filterMap (fun i => (inputs.get? i).map (fun x => (i, g x)))

/-- The first task failure observed while collecting completions. -/
def firstErr (rs : List (Nat × Except PyError Value)) : Option PyError :=
  rs.findSome? (fun p => match p.2 with | .error e => some e | .ok _ => none)

/-- Reassemble completed task results back into submission order, as
`Pool.map` / `Executor.map` do. -/
def reorder (n : Nat) (rs : List (Nat × Except PyError Value)) : List Value :=
  (List.range n).filterMap
    (fun j => (rs.find? (fun p => p.1 == j)).bind (fun p => p.2.toOption))

/-- A pool-backed map: tasks complete in the order given by `order`; the
first observed failure is re-raised, otherwise the results are returned in
submission order. -/
def poolMap (order : List Nat) (g : Value → Except PyError Value)
    (inputs : List Value) : Except PyError (List Value) :=
  match firstErr (poolRun order g inputs) with
  | some e => .error e
  | none => .ok (reorder inputs.length (poolRun order g inputs))

/-- `isinstance(v, dict)`. -/
def isDict : Value → Bool
  | .dict _ => true
  | _ => false

/-- The keys of a dict value (empty for non-dicts). -/
def keyList : Value → List String
  | .dict d => d.map Prod.fst
  | _ => []

/-- Python dict lookup in an insertion-ordered association list. -/
def dictGet (d : List (String × Value)) (k : String) : Option Value :=
  (d.find? (fun p => p.1 == k)).map Prod.snd

/-- `set(a) == set(b)`: order-independent, content-exact key-set equality. -/
def sameKeySet (a b : List String) : Bool :=
  a.all (fun x => b.contains x) && b.all (fun x => a.contains x)

/-- Validation of one result record against the shared key set: it must be a
dict and its key set must equal the shared one. -/
def checkRecord (keys : List String) (r : Value) : Except PyError Unit :=
  match r with
  | .dict d =>
    if sameKeySet (d.map Prod.fst) keys then .ok ()
    else .error (.exception "different keys across outputs")
  | _ => .error (.exception "outputs are not of type dict")

/-- The record-validation loop of `_list_of_dicts_to_dict_of_lists`: the
first invalid record raises. -/
def checkRecords (keys : List String) : List Value → Except PyError Unit
  | [] => .ok ()
  | r :: rs =>
    match checkRecord keys r with
    | .error e => .error e
    | .ok _ => checkRecords keys rs

/-- The value a record contributes to the column of key `k`. -/
def colFn (k : String) : Value → Option Value
  | .dict d => dictGet d k
  | _ => none

/-- The column of key `k`: the per-record values for `k`, in record order. -/
def column (records : List Value) (k : String) : List Value :=
  records.filterMap (colFn k)

lemma value_sizeOf_pos (v : Value) : 0 < sizeOf v := by
  cases v <;> simp

lemma colFn_sizeOf_lt (k : String) (r v : Value) (h : colFn k r = some v) :
    sizeOf v < sizeOf r := by
  cases r with
  | dict d =>
    simp only [colFn, dictGet] at h
    obtain ⟨p, hfind, hv⟩ := Option.map_eq_some'.mp h
    have hmem : p ∈ d := List.mem_of_find?_eq_some hfind
    have hlt : sizeOf p < sizeOf d := List.sizeOf_lt_of_mem hmem
    obtain ⟨k', v'⟩ := p
    subst hv
    simp at hlt ⊢
    omega
  | int i => simp [colFn] at h
  | str s => simp [colFn] at h
  | list l => simp [colFn] at h

lemma column_sizeOf_le (k : String) (l : List Value) :
    sizeOf (column l k) ≤ sizeOf l := by
  induction l with
  | nil => simp [column]
  | cons r rs ih =>
    simp only [column, List.filterMap_cons] at ih ⊢
    cases h : colFn k r with
    | none =>
      have : 0 < sizeOf r := value_sizeOf_pos r
      simp
      omega
    | some v =>
      have := colFn_sizeOf_lt k r v h
      simp
      omega

lemma column_sizeOf_lt (k : String) (r0 : Value) (rest : List Value) :
    sizeOf (column (r0 :: rest) k) < sizeOf (r0 :: rest) := by
  have hle := column_sizeOf_le k rest
  simp only [column, List.filterMap_cons]
  cases h : colFn k r0 with
  | none =>
    have : 0 < sizeOf r0 := value_sizeOf_pos r0
    simp only [column] at hle
    simp
    omega
  | some v =>
    have := colFn_sizeOf_lt k r0 v h
    simp only [column] at hle
    simp
    omega

mutual

/-- `_list_of_dicts_to_dict_of_lists`: validate that every record is a dict
with the first record's key set, then map each key to its column; with
`deep`, any column consisting exclusively of dicts is transposed again,
recursively.  (Python iterates `set(records[0].keys())`; the set's
hash-driven iteration order is determinized here to the first record's
insertion order, which affects only the order of the output dict's keys.)
An empty record list hits `records[0]` and raises `IndexError`; the caller
in `parallel_map` guards this with `len(output) > 0`. -/
def _list_of_dicts_to_dict_of_lists (records : List Value) (deep : Bool) :
    Except PyError Value :=
  match records with
  | [] => .error (.exception "list index out of range")
  | .dict d0 :: rest =>
    match checkRecords (d0.map Prod.fst) (.dict d0 :: rest) with
    | .error e => .error e
    | .ok _ =>
      match buildEntries (.dict d0) rest (d0.map Prod.fst) deep with
      | .error e => .error e
      | .ok entries => .ok (.dict entries)
  | _ :: _ => .error (.exception "outputs are not of type dict")
termination_by (sizeOf records, 1, 0)
decreasing_by
· simp_wf
  apply Prod.Lex.right
  exact Prod.Lex.left _ _ (by omega)

/-- Build the output entries of the transpose, one key at a time: each key is
paired with its column, recursively transposed when `deep` is set and the
column consists exclusively of dicts. -/
def buildEntries (r0 : Value) (rest : List Value) (keys : List String)
    (deep : Bool) : Except PyError (List (String × Value)) :=
  match keys with
  | [] => .ok []
  | k :: ks =>
    let col := column (r0 :: rest) k
    let entryE : Except PyError Value :=
      if deep && col.all isDict then
        _list_of_dicts_to_dict_of_lists col deep
      else
        .ok (.list col)
    match entryE with
    | .error e => .error e
    | .ok v =>
      match buildEntries r0 rest ks deep with
      | .error e => .error e
      | .ok others => .ok ((k, v) :: others)
termination_by (sizeOf (r0 :: rest), 0, keys.length)
decreasing_by
· simp_wf
  exact Prod.Lex.left _ _ (column_sizeOf_lt k r0 rest)
· simp_wf
  apply Prod.Lex.right
  apply Prod.Lex.right
  omega

end

/-- `parallel_map`: default the mode and worker count, validate the
subworker parameter, wrap the target, dispatch by strategy (each pool
parameterized by a completion order), optionally transpose, and reapply the
index. -/
def parallel_map (f : PyTarget) (n_workers : Option Nat) (mode : Option String)
    (arg_list : Option Value) (arg_name : Option String)
    (arg_lists : Option Value) (kwarg_dicts : Option Value)
    (common : Option (List (String × Value))) (to_dict_of_lists : Bool)
    (n_subworkers_per_worker : Option Nat) (cpu_count : Nat)
    (completion : List Nat) : Except PyError Value :=
  let mode := mode.getD "process"
  let n_workers := n_workers.getD cpu_count
  if n_subworkers_per_worker.isSome ∧ mode ≠ "nested" then
    .error (.exception "n_subworkers_per_worker only valid for nested mode")
  else
    match _wrap_f f arg_list arg_lists arg_name kwarg_dicts common with
    | .error e => .error e
    | .ok (wrapped_f, inputsVal, index) =>
      if to_dict_of_lists ∧ index.isSome then
        .error (.notImplemented "collapsing dict keys with indexed inputs")
      else
        let outputE : Except PyError (List Value) :=
          if mode = "process" then
            if n_workers = 0 then
              .error (.valueError "Number of processes must be at least 1")
            else
              match pyIter inputsVal with
              | .error e => .error e
              | .ok inputs => poolMap completion wrapped_f inputs
          else if mode = "thread" then
            if n_workers = 0 then
              .error (.valueError "max_workers must be greater than 0")
            else
              match pyIter inputsVal with
              | .error e => .error e
              | .ok inputs => inputs.mapM wrapped_f
          else if mode = "serial" then
            match pyIter inputsVal with
            | .error e => .error e
            | .ok inputs => inputs.mapM wrapped_f
          else if mode = "nested" then
            .error (.notImplemented "")
          else
            .error (.exception ("unknown mode: " ++ mode))
        match outputE with
        | .error e => .error e
        | .ok output =>
          if to_dict_of_lists ∧ 0 < output.length then
            -- the index is necessarily absent here: the combination was
            -- rejected before dispatch
            _list_of_dicts_to_dict_of_lists output true
          else
            match index with
            | some idx => .ok (.dict (idx.zip output))
            | Option.none => .ok (.list output)


/-! ## Generic dispatch lemmas -/

lemma mapM_ok {α β ε : Type} {l : List α} {g : α → Except ε β} {r : α → β}
    (hg : ∀ x ∈ l, g x = .ok (r x)) : l.mapM g = .ok (l.map r) := by
  induction l with
  | nil => rfl
  | cons a t ih =>
    rw [List.mapM_cons, hg a (List.mem_cons_self a t),
      ih (fun x hx => hg x (List.mem_cons_of_mem a hx))]
    rfl

lemma mapM_err {α β ε : Type} {l : List α} {g : α → Except ε β} {x : α} {e : ε}
    (hx : x ∈ l) (he : g x = .error e) : ∃ e', l.mapM g = .error e' := by
  induction l with
  | nil => cases hx
  | cons a t ih =>
    cases hga : g a with
    | error e2 => exact ⟨e2, by rw [List.mapM_cons, hga]; rfl⟩
    | ok v =>
      rcases List.mem_cons.mp hx with rfl | hxt
      · rw [hga] at he; cases he
      · obtain ⟨e', ht⟩ := ih hxt
        exact ⟨e', by rw [List.mapM_cons, hga, ht]; rfl⟩

lemma mem_poolRun {order : List Nat} {g : Value → Except PyError Value}
    {l : List Value} {i : Nat} {x : Value} (hi : i ∈ order)
    (hx : l.get? i = some x) : (i, g x) ∈ poolRun order g l :=
  List.mem_filterMap.mpr ⟨i, hi, by rw [hx]; rfl⟩

lemma poolRun_mem {order : List Nat} {g : Value → Except PyError Value}
    {l : List Value} {p : Nat × Except PyError Value}
    (hp : p ∈ poolRun order g l) :
    ∃ i x, i ∈ order ∧ l.get? i = some x ∧ p = (i, g x) := by
  obtain ⟨i, hi, hmap⟩ := List.mem_filterMap.mp hp
  cases hx : l.get? i with
  | none => rw [hx] at hmap; cases hmap
  | some x =>
    rw [hx] at hmap
    simp only [Option.map_some'] at hmap
    injection hmap with h2
    exact ⟨i, x, hi, hx, h2.symm⟩

lemma firstErr_eq_none {rs : List (Nat × Except PyError Value)}
    (h : ∀ p ∈ rs, ∃ v, p.2 = .ok v) : firstErr rs = none := by
  apply List.findSome?_eq_none_iff.mpr
  intro p hp
  obtain ⟨v, hv⟩ := h p hp
  simp [hv]

lemma firstErr_exists {rs : List (Nat × Except PyError Value)}
    {p : Nat × Except PyError Value} (hp : p ∈ rs) {e : PyError}
    (he : p.2 = .error e) : ∃ e', firstErr rs = some e' := by
  cases hfe : firstErr rs with
  | some e' => exact ⟨e', rfl⟩
  | none =>
    have := List.findSome?_eq_none_iff.mp hfe p hp
    rw [he] at this
    cases this

lemma find_poolRun_eq {order : List Nat} {g : Value → Except PyError Value}
    {l : List Value} (hperm : order.Perm (List.range l.length)) {j : Nat}
    (hj : j < l.length) {x : Value} (hx : l.get? j = some x) :
    (poolRun order g l).find? (fun p => p.1 == j) = some (j, g x) := by
  have hjo : j ∈ order := hperm.mem_iff.mpr (List.mem_range.mpr hj)
  have hmem : (j, g x) ∈ poolRun order g l := mem_poolRun hjo hx
  cases hf : (poolRun order g l).find? (fun p => p.1 == j) with
  | none => exact absurd (List.find?_eq_none.mp hf _ hmem) (by simp)
  | some p =>
    have hpred := List.find?_some hf
    have hpm := List.mem_of_find?_eq_some hf
    obtain ⟨i, x', hio, hx', rfl⟩ := poolRun_mem hpm
    have hij : i = j := by simpa using hpred
    subst hij
    rw [hx] at hx'
    cases hx'
    rfl

lemma filterMapCongrMem {α β : Type} {f g : α → Option β} :
    ∀ {l : List α}, (∀ a ∈ l, f a = g a) → l.filterMap f = l.filterMap g
  | [], _ => rfl
  | a :: t, h => by
    rw [List.filterMap_cons, List.filterMap_cons, h a (List.mem_cons_self a t),
      filterMapCongrMem (fun x hx => h x (List.mem_cons_of_mem a hx))]

lemma filterMapSome {α β : Type} (f : α → β) :
    ∀ (l : List α), l.filterMap (fun a => some (f a)) = l.map f
  | [] => rfl
  | a :: t => by
    rw [List.filterMap_cons, List.map_cons, filterMapSome f t]

lemma range_map_getD {α : Type} (r : Value → α) :
    ∀ (l : List Value),
      (List.range l.length).map (fun j => r (l.getD j (Value.int 0))) = l.map r
  | [] => rfl
  | a :: t => by
    rw [List.length_cons, List.range_succ_eq_map, List.map_cons, List.map_map,
      List.map_cons]
    have hc : ((fun j => r ((a :: t).getD j (Value.int 0))) ∘ Nat.succ)
        = fun j => r (t.getD j (Value.int 0)) := by
      funext j
      simp
    rw [hc, range_map_getD r t]
    simp

lemma get?_getD {l : List Value} {j : Nat} (hj : j < l.length) :
    l.get? j = some (l.getD j (Value.int 0)) := by
  cases hq : l.get? j with
  | none => exact absurd (List.get?_eq_none.mp hq) (Nat.not_le.mpr hj)
  | some x =>
    rw [List.getD_eq_getElem?_getD, ← List.get?_eq_getElem?, hq]
    rfl

lemma reorder_poolRun {order : List Nat} {g : Value → Except PyError Value}
    {l : List Value} {r : Value → Value}
    (hperm : order.Perm (List.range l.length))
    (hg : ∀ x ∈ l, g x = .ok (r x)) :
    reorder l.length (poolRun order g l) = l.map r := by
  unfold reorder
  have h1 : ∀ j ∈ List.range l.length,
      ((poolRun order g l).find? (fun p => p.1 == j)).bind
          (fun p => p.2.toOption)
        = some (r (l.getD j (Value.int 0))) := by
    intro j hj
    have hjlt := List.mem_range.mp hj
    have hx := get?_getD hjlt
    rw [find_poolRun_eq hperm hjlt hx]
    rw [hg _ (List.get?_mem hx)]
    rfl
  rw [filterMapCongrMem h1, filterMapSome, range_map_getD]

lemma poolMap_ok {order : List Nat} {g : Value → Except PyError Value}
    {l : List Value} {r : Value → Value}
    (hperm : order.Perm (List.range l.length))
    (hg : ∀ x ∈ l, g x = .ok (r x)) :
    poolMap order g l = .ok (l.map r) := by
  unfold poolMap
  have hfe : firstErr (poolRun order g l) = none := by
    apply firstErr_eq_none
    intro p hp
    obtain ⟨i, x, hio, hx, rfl⟩ := poolRun_mem hp
    exact ⟨r x, by rw [hg x (List.get?_mem hx)]⟩
  rw [hfe, reorder_poolRun hperm hg]

lemma poolMap_err {order : List Nat} {g : Value → Except PyError Value}
    {l : List Value} {x : Value} {e : PyError}
    (hperm : order.Perm (List.range l.length)) (hx : x ∈ l)
    (he : g x = .error e) : ∃ e', poolMap order g l = .error e' := by
  obtain ⟨i, hi⟩ := List.mem_iff_get?.mp hx
  have hilt : i < l.length := by
    by_contra hle
    rw [List.get?_eq_none.mpr (Nat.le_of_not_lt hle)] at hi
    cases hi
  have hio : i ∈ order := hperm.mem_iff.mpr (List.mem_range.mpr hilt)
  have hpmem := mem_poolRun (g := g) hio hi
  obtain ⟨e', hfe⟩ := firstErr_exists hpmem (by simpa using he)
  exact ⟨e', by unfold poolMap; rw [hfe]⟩

/-! ## Transpose lemmas -/

/-- The value of key `k` in record `r`, with a dummy default (total version
of `colFn`, used only to state column contents for validated records). -/
def valueAtD (r : Value) (k : String) : Value :=
  (colFn k r).getD (Value.int 0)

/-- The transpose applied to one derived column, as `parallel_map`'s deep
mode does: recurse when the column consists exclusively of dicts, otherwise
keep the plain column list. -/
def transposeEntry (col : List Value) : Except PyError Value :=
  if col.all isDict then _list_of_dicts_to_dict_of_lists col true
  else .ok (.list col)

lemma sameKeySet_iff {a b : List String} :
    sameKeySet a b = true ↔ ((∀ x ∈ a, x ∈ b) ∧ ∀ x ∈ b, x ∈ a) := by
  simp [sameKeySet, List.all_eq_true]

lemma sameKeySet_trans {a b c : List String} (h1 : sameKeySet a b = true)
    (h2 : sameKeySet b c = true) : sameKeySet a c = true := by
  rw [sameKeySet_iff] at h1 h2 ⊢
  exact ⟨fun x hx => h2.1 x (h1.1 x hx), fun x hx => h1.2 x (h2.2 x hx)⟩

lemma sameKeySet_symm {a b : List String} (h : sameKeySet a b = true) :
    sameKeySet b a = true := by
  rw [sameKeySet_iff] at h ⊢
  exact ⟨h.2, h.1⟩

lemma checkRecord_ok_dict {keys : List String} {d : List (String × Value)}
    (h : sameKeySet (d.map Prod.fst) keys = true) :
    checkRecord keys (Value.dict d) = .ok () := by
  simp [checkRecord, h]

lemma checkRecord_ok_elim {keys : List String} {r : Value}
    (h : checkRecord keys r = .ok ()) :
    ∃ d, r = Value.dict d ∧ sameKeySet (d.map Prod.fst) keys = true := by
  cases r with
  | dict d =>
    refine ⟨d, rfl, ?_⟩
    by_cases hc : sameKeySet (d.map Prod.fst) keys = true
    · exact hc
    · rw [checkRecord] at h
      rw [if_neg hc] at h
      cases h
  | int i => simp [checkRecord] at h
  | str s => simp [checkRecord] at h
  | list l => simp [checkRecord] at h

lemma checkRecord_err_elim {keys : List String} {r : Value} {e : PyError}
    (h : checkRecord keys r = .error e) :
    e = .exception "outputs are not of type dict" ∨
      e = .exception "different keys across outputs" := by
  cases r with
  | dict d =>
    rw [checkRecord] at h
    by_cases hc : sameKeySet (d.map Prod.fst) keys = true
    · rw [if_pos hc] at h; cases h
    · rw [if_neg hc] at h
      injection h with h2
      exact Or.inr h2.symm
  | int i =>
    simp only [checkRecord] at h
    injection h with h2
    exact Or.inl h2.symm
  | str s =>
    simp only [checkRecord] at h
    injection h with h2
    exact Or.inl h2.symm
  | list l =>
    simp only [checkRecord] at h
    injection h with h2
    exact Or.inl h2.symm

lemma checkRecords_ok {keys : List String} :
    ∀ {l : List Value}, (∀ r ∈ l, checkRecord keys r = .ok ()) →
      checkRecords keys l = .ok ()
  | [], _ => rfl
  | r :: rs, h => by
    simp only [checkRecords]
    rw [h r (List.mem_cons_self r rs)]
    exact checkRecords_ok (fun x hx => h x (List.mem_cons_of_mem r hx))

lemma checkRecords_ok_elim {keys : List String} :
    ∀ {l : List Value}, checkRecords keys l = .ok () →
      ∀ r ∈ l, checkRecord keys r = .ok ()
  | [], _, r, hr => absurd hr (List.not_mem_nil r)
  | x :: xs, h, r, hr => by
    simp only [checkRecords] at h
    cases hcx : checkRecord keys x with
    | error e => rw [hcx] at h; cases h
    | ok u =>
      rcases List.mem_cons.mp hr with rfl | hm
      · cases u; exact hcx
      · rw [hcx] at h
        exact checkRecords_ok_elim h r hm

lemma checkRecords_err_elim {keys : List String} :
    ∀ {l : List Value} {e : PyError}, checkRecords keys l = .error e →
      e = .exception "outputs are not of type dict" ∨
        e = .exception "different keys across outputs"
  | [], e, h => by cases h
  | x :: xs, e, h => by
    simp only [checkRecords] at h
    cases hcx : checkRecord keys x with
    | error e1 =>
      rw [hcx] at h
      injection h with h2
      exact h2 ▸ checkRecord_err_elim hcx
    | ok u => rw [hcx] at h; exact checkRecords_err_elim h

lemma dictGet_isSome {d : List (String × Value)} {k : String}
    (h : k ∈ d.map Prod.fst) : ∃ v, dictGet d k = some v := by
  obtain ⟨p, hp, hpk⟩ := List.mem_map.mp h
  have hs : (d.find? (fun q => q.1 == k)).isSome :=
    List.find?_isSome.mpr ⟨p, hp, by simp [hpk]⟩
  obtain ⟨q, hq⟩ := Option.isSome_iff_exists.mp hs
  exact ⟨q.2, by rw [dictGet, hq]; rfl⟩

lemma column_eq_map {keys0 : List String} {k : String} (hk : k ∈ keys0) :
    ∀ {records : List Value},
      (∀ r ∈ records, ∃ d, r = Value.dict d ∧
        sameKeySet (d.map Prod.fst) keys0 = true) →
      column records k = records.map (fun r => valueAtD r k)
  | [], _ => rfl
  | r :: rs, h => by
    obtain ⟨d, rfl, hsk⟩ := h _ (List.mem_cons_self r rs)
    have hkd : k ∈ d.map Prod.fst := (sameKeySet_iff.mp hsk).2 k hk
    obtain ⟨v, hv⟩ := dictGet_isSome hkd
    have hcol : colFn k (Value.dict d) = some v := hv
    rw [column, List.filterMap_cons, hcol, List.map_cons]
    have hrest := column_eq_map hk (fun x hx => h x (List.mem_cons_of_mem _ hx))
    rw [column] at hrest
    rw [hrest]
    have hval : valueAtD (Value.dict d) k = v := by
      rw [valueAtD, hcol]
      rfl
    rw [hval]

lemma mapMCongrMem {α β ε : Type} {f g : α → Except ε β} :
    ∀ {l : List α}, (∀ a ∈ l, f a = g a) → l.mapM f = l.mapM g
  | [], _ => rfl
  | a :: t, h => by
    rw [List.mapM_cons, List.mapM_cons, h a (List.mem_cons_self a t),
      mapMCongrMem (fun x hx => h x (List.mem_cons_of_mem a hx))]

lemma zipMapPairs (r : Value → Value) :
    ∀ (d : List (String × Value)),
      (d.map Prod.fst).zip ((d.map Prod.snd).map r)
        = d.map (fun p => (p.1, r p.2))
  | [] => rfl
  | p :: t => by
    rw [List.map_cons, List.map_cons, List.map_cons, List.map_cons,
      List.zip_cons_cons, zipMapPairs r t]

lemma buildEntries_eq_mapM (r0 : Value) (rest : List Value) :
    ∀ (keys : List String),
      buildEntries r0 rest keys true
        = keys.mapM (fun k =>
            (transposeEntry (column (r0 :: rest) k)).map (fun v => (k, v)))
  | [] => by
    simp only [buildEntries, List.mapM_nil]
    rfl
  | k :: ks => by
    have hT : (if (column (r0 :: rest) k).all isDict then
          _list_of_dicts_to_dict_of_lists (column (r0 :: rest) k) true
        else .ok (.list (column (r0 :: rest) k)))
        = transposeEntry (column (r0 :: rest) k) := rfl
    rw [List.mapM_cons]
    simp only [buildEntries, Bool.true_and]
    rw [hT, buildEntries_eq_mapM r0 rest ks]
    cases hE : transposeEntry (column (r0 :: rest) k) with
    | error e => rfl
    | ok v =>
      cases hR : ks.mapM (fun k =>
          (transposeEntry (column (r0 :: rest) k)).map (fun v => (k, v))) with
      | error e => rfl
      | ok others => rfl

/-! ## Running `parallel_map` -/

/-- The identity target function, `lambda x: x`. -/
def idTarget : PyTarget where
  params := ["x"]
  body := fun env =>
    match lookupKw env "x" with
    | some v => .ok v
    | none => .error (.exception "unbound parameter")

lemma parallel_map_run_ok {f : PyTarget} {nw : Option Nat} {mode : String}
    {al als kd : Option Value} {an : Option String}
    {c : Option (List (String × Value))}
    {g : Value → Except PyError Value} {inputs : List Value}
    {index : Option (List String)} {r : Value → Value} {cpu : Nat}
    {order : List Nat}
    (hwrap : _wrap_f f al als an kd c = .ok (g, .list inputs, index))
    (hmode : mode = "process" ∨ mode = "thread" ∨ mode = "serial")
    (hnw : 0 < nw.getD cpu)
    (horder : order.Perm (List.range inputs.length))
    (hg : ∀ x ∈ inputs, g x = .ok (r x)) :
    parallel_map f nw (some mode) al an als kd c false none cpu order
      = .ok (match index with
          | some idx => .dict (idx.zip (inputs.map r))
          | Option.none => .list (inputs.map r)) := by
  have hne : nw.getD cpu ≠ 0 := Nat.pos_iff_ne_zero.mp hnw
  have hPM := poolMap_ok horder hg
  have hMM := mapM_ok hg
  rcases hmode with rfl | rfl | rfl
  · have e1 : (("process" : String) = "process") = True := eq_true rfl
    simp only [parallel_map, Option.getD_some, Option.isSome_none,
      Bool.false_eq_true, false_and, if_false, hwrap, pyIter, e1, if_true, hPM]
    rw [if_neg hne]
    cases index <;> rfl
  · have e1 : (("thread" : String) = "process") = False := eq_false (by decide)
    have e2 : (("thread" : String) = "thread") = True := eq_true rfl
    simp only [parallel_map, Option.getD_some, Option.isSome_none,
      Bool.false_eq_true, false_and, if_false, hwrap, pyIter, e1, e2, if_true,
      hMM]
    rw [if_neg hne]
    cases index <;> rfl
  · have e1 : (("serial" : String) = "process") = False := eq_false (by decide)
    have e2 : (("serial" : String) = "thread") = False := eq_false (by decide)
    have e3 : (("serial" : String) = "serial") = True := eq_true rfl
    simp only [parallel_map, Option.getD_some, Option.isSome_none,
      Bool.false_eq_true, false_and, if_false, hwrap, pyIter, e1, e2, e3,
      if_true, hMM]
    cases index <;> rfl

lemma parallel_map_run_err {f : PyTarget} {nw : Option Nat} {mode : String}
    {al als kd : Option Value} {an : Option String}
    {c : Option (List (String × Value))}
    {g : Value → Except PyError Value} {inputs : List Value}
    {index : Option (List String)} {cpu : Nat} {order : List Nat}
    {tdl : Bool} {nsub : Option Nat}
    (hwrap : _wrap_f f al als an kd c = .ok (g, .list inputs, index))
    (hmode : mode = "process" ∨ mode = "thread" ∨ mode = "serial")
    (horder : order.Perm (List.range inputs.length))
    (hfail : ∃ x ∈ inputs, ∃ e, g x = .error e) :
    ∃ e', parallel_map f nw (some mode) al an als kd c tdl nsub cpu order
      = .error e' := by
  obtain ⟨x, hx, e, he⟩ := hfail
  obtain ⟨ep, hp⟩ := poolMap_err horder hx he
  obtain ⟨em, hm⟩ := mapM_err hx he
  by_cases hsub : (nsub.isSome = true ∧ ¬ mode = "nested")
  · exact ⟨.exception "n_subworkers_per_worker only valid for nested mode",
      by simp only [parallel_map, Option.getD_some, if_pos hsub]⟩
  · by_cases htdl : (tdl = true ∧ index.isSome = true)
    · exact ⟨.notImplemented "collapsing dict keys with indexed inputs",
        by simp only [parallel_map, Option.getD_some, if_neg hsub,
          hwrap, if_pos htdl]⟩
    · rcases hmode with rfl | rfl | rfl
      · have e1 : (("process" : String) = "process") = True := eq_true rfl
        by_cases hnw0 : nw.getD cpu = 0
        · refine ⟨.valueError "Number of processes must be at least 1", ?_⟩
          simp only [parallel_map, Option.getD_some, if_neg hsub, hwrap,
            if_neg htdl, pyIter, e1, if_true, if_pos hnw0]
        · refine ⟨ep, ?_⟩
          simp only [parallel_map, Option.getD_some, if_neg hsub, hwrap,
            if_neg htdl, pyIter, e1, if_true, if_neg hnw0, hp]
      · have e1 : (("thread" : String) = "process") = False := eq_false (by decide)
        have e2 : (("thread" : String) = "thread") = True := eq_true rfl
        by_cases hnw0 : nw.getD cpu = 0
        · refine ⟨.valueError "max_workers must be greater than 0", ?_⟩
          simp only [parallel_map, Option.getD_some, if_neg hsub, hwrap,
            if_neg htdl, pyIter, e1, e2, if_false, if_true, if_pos hnw0]
        · refine ⟨em, ?_⟩
          simp only [parallel_map, Option.getD_some, if_neg hsub, hwrap,
            if_neg htdl, pyIter, e1, e2, if_false, if_true, if_neg hnw0, hm]
      · have e1 : (("serial" : String) = "process") = False := eq_false (by decide)
        have e2 : (("serial" : String) = "thread") = False := eq_false (by decide)
        have e3 : (("serial" : String) = "serial") = True := eq_true rfl
        refine ⟨em, ?_⟩
        simp only [parallel_map, Option.getD_some, if_neg hsub, hwrap,
          if_neg htdl, pyIter, e1, e2, e3, if_false, if_true, hm]

/-! ## Keyword-collision lemmas -/

lemma mergeTwo_err_elim :
    ∀ {acc d : List (String × Value)} {e : PyError},
      mergeTwo acc d = .error e →
      e = .typeError "got multiple values for keyword argument"
  | _, [], _, h => by cases h
  | acc, (k, v) :: rest, e, h => by
    by_cases hdup : acc.any (fun p => p.1 == k) = true
    · rw [mergeTwo, if_pos hdup] at h
      injection h with h2
      exact h2.symm
    · rw [mergeTwo, if_neg hdup] at h
      exact mergeTwo_err_elim h

lemma mergeTwo_ok_elim :
    ∀ {acc d : List (String × Value)} {acc' : List (String × Value)},
      mergeTwo acc d = .ok acc' → acc' = acc ++ d
  | acc, [], acc', h => by
    injection h with h2
    rw [← h2, List.append_nil]
  | acc, (k, v) :: rest, acc', h => by
    by_cases hdup : acc.any (fun p => p.1 == k) = true
    · rw [mergeTwo, if_pos hdup] at h
      cases h
    · rw [mergeTwo, if_neg hdup] at h
      have := mergeTwo_ok_elim h
      rw [this, List.append_assoc]
      rfl

lemma mergeTwo_err_of_mem {nm : String} :
    ∀ {acc d : List (String × Value)},
      acc.any (fun p => p.1 == nm) = true → nm ∈ d.map Prod.fst →
      mergeTwo acc d
        = .error (.typeError "got multiple values for keyword argument")
  | _, [], _, hmem => absurd hmem (List.not_mem_nil nm)
  | acc, (k, v) :: rest, hacc, hmem => by
    by_cases hdup : acc.any (fun p => p.1 == k) = true
    · rw [mergeTwo, if_pos hdup]
    · rw [mergeTwo, if_neg hdup]
      have hkn : k ≠ nm := by
        intro hkn
        subst hkn
        exact hdup hacc
      have hrest : nm ∈ rest.map Prod.fst := by
        rcases List.mem_map.mp hmem with ⟨p, hp, hpk⟩
        rcases List.mem_cons.mp hp with rfl | hpr
        · exact absurd hpk hkn
        · exact List.mem_map.mpr ⟨p, hpr, hpk⟩
      have hacc' : (acc ++ [(k, v)]).any (fun p => p.1 == nm) = true := by
        rw [List.any_append, hacc]
        rfl
      exact mergeTwo_err_of_mem hacc' hrest

lemma anyKeyOfMem {d : List (String × Value)} {nm : String}
    (h : nm ∈ d.map Prod.fst) : d.any (fun p => p.1 == nm) = true := by
  rcases List.mem_map.mp h with ⟨p, hp, hpk⟩
  exact List.any_eq_true.mpr ⟨p, hp, by rw [hpk]; simp⟩

lemma mergeKwargs_two_err {d1 c : List (String × Value)} {nm : String}
    (h1 : nm ∈ d1.map Prod.fst) (h2 : nm ∈ c.map Prod.fst) :
    mergeKwargs [d1, c]
      = .error (.typeError "got multiple values for keyword argument") := by
  rw [mergeKwargs]
  cases hm : mergeTwo [] d1 with
  | error e =>
    simp only [mergeKwargsGo, hm, mergeTwo_err_elim hm]
  | ok acc =>
    have hacc : acc = d1 := by
      have := mergeTwo_ok_elim hm
      rw [this]
      rfl
    subst hacc
    simp only [mergeKwargsGo, hm,
      mergeTwo_err_of_mem (anyKeyOfMem h1) h2]

lemma f_named_arg_collision {a : Value} {f : PyTarget}
    {c : List (String × Value)} {nm : String} (h : nm ∈ c.map Prod.fst) :
    _f_named_arg a f c nm
      = .error (.typeError "got multiple values for keyword argument") := by
  rw [_f_named_arg, callTarget, mergeKwargs_two_err (by simp) h]

lemma f_kwargs_collision {kw c : List (String × Value)} {f : PyTarget}
    {nm : String} (h1 : nm ∈ kw.map Prod.fst) (h2 : nm ∈ c.map Prod.fst) :
    _f_kwargs (.dict kw) f c
      = .error (.typeError "got multiple values for keyword argument") := by
  rw [_f_kwargs, callTarget, mergeKwargs_two_err h1 h2]

/-! ## Shape-validation lemmas -/

lemma wrap_f_count_err {f : PyTarget} {al als kd : Option Value}
    {an : Option String} {c : Option (List (String × Value))}
    (h : ([al, als, kd].countP Option.isNone) ≠ 2) :
    _wrap_f f al als an kd c
      = .error (.exception "must specify arg_list, arg_lists, or kwarg_dicts") := by
  simp only [_wrap_f, if_pos h]

lemma wrap_f_shape (al als kd : Option Value) (an : Option String)
    (c : Option (List (String × Value)))
    (h : ([al, als, kd].countP Option.isNone) = 2) :
    ∃ inp idx, ∀ f, ∃ g, _wrap_f f al als an kd c = .ok (g, inp, idx) := by
  cases al with
  | some a =>
    cases als with
    | some b =>
      exfalso
      cases kd <;>
        simp [List.countP_cons, Option.isNone] at h
    | none =>
      cases kd with
      | some kk =>
        exfalso
        simp [List.countP_cons, Option.isNone] at h
      | none =>
        cases an with
        | none => cases a <;> exact ⟨_, _, fun f => ⟨_, rfl⟩⟩
        | some nm => cases a <;> exact ⟨_, _, fun f => ⟨_, rfl⟩⟩
  | none =>
    cases als with
    | some b =>
      cases kd with
      | some kk =>
        exfalso
        simp [List.countP_cons, Option.isNone] at h
      | none => cases b <;> exact ⟨_, _, fun f => ⟨_, rfl⟩⟩
    | none =>
      cases kd with
      | some kk => cases kk <;> exact ⟨_, _, fun f => ⟨_, rfl⟩⟩
      | none =>
        exfalso
        simp [List.countP_cons, Option.isNone] at h

/-! ## Transpose validation and characterization -/

lemma transpose_heterogeneous {records : List Value}
    (hbad : (∃ r ∈ records, isDict r = false) ∨
      (∃ r1 ∈ records, ∃ r2 ∈ records, isDict r1 = true ∧ isDict r2 = true ∧
        sameKeySet (keyList r1) (keyList r2) = false)) (deep : Bool) :
    ∃ e, _list_of_dicts_to_dict_of_lists records deep = .error e ∧
      (e = .exception "outputs are not of type dict" ∨
        e = .exception "different keys across outputs") := by
  cases records with
  | nil =>
    exfalso
    rcases hbad with ⟨r, hr, _⟩ | ⟨r1, hr1, _⟩
    · exact List.not_mem_nil r hr
    · exact List.not_mem_nil r1 hr1
  | cons r0 rest =>
    cases r0 with
    | dict d0 =>
      cases hc : checkRecords (d0.map Prod.fst) (Value.dict d0 :: rest) with
      | error e =>
        refine ⟨e, ?_, checkRecords_err_elim hc⟩
        simp only [_list_of_dicts_to_dict_of_lists, hc]
      | ok u =>
        exfalso
        cases u
        have hall := checkRecords_ok_elim hc
        rcases hbad with ⟨r, hr, hnd⟩ | ⟨r1, hr1, r2, hr2, _, _, hks⟩
        · obtain ⟨d, rfl, _⟩ := checkRecord_ok_elim (hall r hr)
          simp [isDict] at hnd
        · obtain ⟨d1, he1, hs1⟩ := checkRecord_ok_elim (hall r1 hr1)
          obtain ⟨d2, he2, hs2⟩ := checkRecord_ok_elim (hall r2 hr2)
          subst he1
          subst he2
          have htr : sameKeySet (keyList (Value.dict d1))
              (keyList (Value.dict d2)) = true := by
            have := sameKeySet_trans hs1 (sameKeySet_symm hs2)
            simpa [keyList] using this
          rw [htr] at hks
          cases hks
    | int i =>
      refine ⟨.exception "outputs are not of type dict", ?_, Or.inl rfl⟩
      simp only [_list_of_dicts_to_dict_of_lists]
    | str s =>
      refine ⟨.exception "outputs are not of type dict", ?_, Or.inl rfl⟩
      simp only [_list_of_dicts_to_dict_of_lists]
    | list l =>
      refine ⟨.exception "outputs are not of type dict", ?_, Or.inl rfl⟩
      simp only [_list_of_dicts_to_dict_of_lists]

lemma transpose_homogeneous {d0 : List (String × Value)} {rest : List Value}
    (hkeys : ∀ r ∈ (Value.dict d0 :: rest), ∃ d, r = Value.dict d ∧
      sameKeySet (d.map Prod.fst) (d0.map Prod.fst) = true) :
    _list_of_dicts_to_dict_of_lists (Value.dict d0 :: rest) true
      = ((d0.map Prod.fst).mapM (fun k =>
          (transposeEntry ((Value.dict d0 :: rest).map
            (fun r => valueAtD r k))).map (fun v => (k, v)))).map Value.dict := by
  have hcheck : checkRecords (d0.map Prod.fst) (Value.dict d0 :: rest)
      = .ok () := by
    apply checkRecords_ok
    intro r hr
    obtain ⟨d, rfl, hs⟩ := hkeys r hr
    exact checkRecord_ok_dict hs
  simp only [_list_of_dicts_to_dict_of_lists, hcheck]
  rw [buildEntries_eq_mapM]
  have hcg : ∀ k ∈ d0.map Prod.fst,
      (transposeEntry (column (Value.dict d0 :: rest) k)).map (fun v => (k, v))
        = (transposeEntry ((Value.dict d0 :: rest).map
            (fun r => valueAtD r k))).map (fun v => (k, v)) := by
    intro k hk
    rw [column_eq_map hk hkeys]
  rw [mapMCongrMem hcg]
  generalize (d0.map Prod.fst).mapM (fun k =>
      (transposeEntry ((Value.dict d0 :: rest).map
        (fun r => valueAtD r k))).map (fun v => (k, v))) = X
  cases X <;> rfl

/-! ## Claim theorems -/

/-- C1: for every input sequence of N payloads, every implemented strategy
(process-pool, thread-pool, serial) and every worker count from 1 to N,
`parallel_map` with `f` the identity function returns an output sequence
equal to the input sequence, for every completion order of the pool (any
permutation of the task indices). -/
theorem C1_order_preservation (inputs : List Value) (mode : String)
    (hmode : mode = "process" ∨ mode = "thread" ∨ mode = "serial")
    (n_workers : Nat) (hnw : 1 ≤ n_workers ∧ n_workers ≤ inputs.length)
    (cpu : Nat) (order : List Nat)
    (horder : order.Perm (List.range inputs.length)) :
    parallel_map idTarget (some n_workers) (some mode)
      (some (.list inputs)) none none none none false none cpu order
      = .ok (.list inputs) := by
  have hwrap : _wrap_f idTarget (some (.list inputs)) none none none none
      = .ok (fun a => _f_arg a idTarget [], .list inputs, none) := rfl
  have hg : ∀ x ∈ inputs, (fun a => _f_arg a idTarget []) x = .ok (id x) :=
    fun x _ => rfl
  have hnw' : 0 < (some n_workers).getD cpu := by simpa using hnw.1
  have h := parallel_map_run_ok hwrap hmode hnw' horder hg
  simpa using h

theorem C1_order_preservation_witness :
    parallel_map idTarget (some 1) (some "process")
      (some (.list [.int 5, .int 7])) none none none none false none 4 [1, 0]
      = .ok (.list [.int 5, .int 7]) :=
  C1_order_preservation [.int 5, .int 7] "process" (Or.inl rfl) 1
    (by decide) 4 [1, 0] (by decide)

/-- C10: when the execution-strategy token is left unspecified (`mode` is
`None`), the process-pool strategy is selected: a call with `mode = None` is
identical to the same call with `mode = "process"`, for all other arguments
whatsoever — the strategy input is optional and omitting it implies process
isolation rather than an error or serial execution. -/
theorem C10_default_mode (f : PyTarget) (n_workers : Option Nat)
    (arg_list : Option Value) (arg_name : Option String)
    (arg_lists : Option Value) (kwarg_dicts : Option Value)
    (common : Option (List (String × Value))) (to_dict_of_lists : Bool)
    (n_subworkers_per_worker : Option Nat) (cpu_count : Nat)
    (completion : List Nat) :
    parallel_map f n_workers none arg_list arg_name arg_lists kwarg_dicts
        common to_dict_of_lists n_subworkers_per_worker cpu_count completion
      = parallel_map f n_workers (some "process") arg_list arg_name arg_lists
          kwarg_dicts common to_dict_of_lists n_subworkers_per_worker
          cpu_count completion := rfl

/-- The target `lambda x, scale: x * scale` over ints. -/
def scaleTarget : PyTarget where
  params := ["x", "scale"]
  body := fun env =>
    match lookupKw env "x", lookupKw env "scale" with
    | some (.int a), some (.int b) => .ok (.int (a * b))
    | _, _ => .error (.typeError "unsupported operand")

/-- C3: the adapter invokes `f` once per payload using the convention fixed
by the active shape — single value: `f(payload, **common)`; single named
value: `f(**\x7barg_name: payload\x7d, **common)`; positional tuple:
`f(*payload, **common)`; keyword map: `f(**payload, **common)` — with the
common mapping merged identically into every call.  In particular
`f(x, scale)` over single-value shape `[1, 2, 3]` with
`common = \x7bscale: 10\x7d` yields `[10, 20, 30]`, and positional-tuple shape
`[(1, 2), (3, 4)]` yields the same results as keyword-map shape
`[\x7bx: 1, y: 2\x7d, \x7bx: 3, y: 4\x7d]` for every `f(x, y)`. -/
theorem C3_call_conventions :
    (∀ (f : PyTarget) (l : List Value) (c : Option (List (String × Value))),
      _wrap_f f (some (.list l)) none none none c
        = .ok (fun a => _f_arg a f (c.getD []), .list l, none)
      ∧ ∀ a, _f_arg a f (c.getD []) = callTarget f [a] [c.getD []])
    ∧ (∀ (f : PyTarget) (l : List Value) (nm : String)
        (c : Option (List (String × Value))),
      _wrap_f f (some (.list l)) none (some nm) none c
        = .ok (fun a => _f_named_arg a f (c.getD []) nm, .list l, none)
      ∧ ∀ a, _f_named_arg a f (c.getD []) nm
        = callTarget f [] [[(nm, a)], c.getD []])
    ∧ (∀ (f : PyTarget) (l : List Value) (c : Option (List (String × Value))),
      _wrap_f f none (some (.list l)) none none c
        = .ok (fun a => _f_args a f (c.getD []), .list l, none)
      ∧ ∀ args, _f_args (.list args) f (c.getD [])
        = callTarget f args [c.getD []])
    ∧ (∀ (f : PyTarget) (l : List Value) (c : Option (List (String × Value))),
      _wrap_f f none none none (some (.list l)) c
        = .ok (fun a => _f_kwargs a f (c.getD []), .list l, none)
      ∧ ∀ kw, _f_kwargs (.dict kw) f (c.getD [])
        = callTarget f [] [kw, c.getD []])
    ∧ (∀ cpu, parallel_map scaleTarget none (some "serial")
        (some (.list [.int 1, .int 2, .int 3])) none none none
        (some [("scale", .int 10)]) false none cpu []
        = .ok (.list [.int 10, .int 20, .int 30]))
    ∧ (∀ (body : List (String × Value) → Except PyError Value) (cpu : Nat),
      parallel_map (PyTarget.mk ["x", "y"] body) none (some "serial")
          none none
          (some (.list [.list [.int 1, .int 2], .list [.int 3, .int 4]]))
          none none false none cpu []
        = parallel_map (PyTarget.mk ["x", "y"] body) none (some "serial")
            none none none
            (some (.list [.dict [("x", .int 1), ("y", .int 2)],
              .dict [("x", .int 3), ("y", .int 4)]]))
            none false none cpu []) :=
  ⟨fun _ _ _ => ⟨rfl, fun _ => rfl⟩,
   fun _ _ _ _ => ⟨rfl, fun _ => rfl⟩,
   fun _ _ _ => ⟨rfl, fun _ => rfl⟩,
   fun _ _ _ => ⟨rfl, fun _ => rfl⟩,
   fun _ => rfl,
   fun _ _ => rfl⟩

/-- C7 counterexample: the claim asserts that when a common-argument name
collides with the `arg_name` of a single named value, the call succeeds and
the common value wins.  On the code it does not: `f(**\x7bname: arg\x7d, **common)`
with `name` also a key of `common` raises `TypeError` ("got multiple values
for keyword argument"), as CPython forbids duplicate keywords in a call, so
the whole `parallel_map` call raises instead of succeeding. -/
theorem C7_counterexample :
    parallel_map idTarget none (some "serial") (some (.list [.int 1]))
      (some "x") none none (some [("x", .int 2)]) false none 1 []
      = .error (.typeError "got multiple values for keyword argument") := rfl

/-- C7 amended: for every call in which a common-argument name collides with
a per-task argument name (the `arg_name` of a single named value, or a key
present in a per-task keyword map), the task invocation raises a
duplicate-keyword-argument `TypeError` — the call does not succeed and
"common wins" does not hold. -/
theorem C7_collision_raises :
    (∀ (f : PyTarget) (c : List (String × Value)) (nm : String) (a : Value),
      nm ∈ c.map Prod.fst →
      _f_named_arg a f c nm
        = .error (.typeError "got multiple values for keyword argument"))
    ∧ (∀ (f : PyTarget) (kw c : List (String × Value)) (nm : String),
      nm ∈ kw.map Prod.fst → nm ∈ c.map Prod.fst →
      _f_kwargs (.dict kw) f c
        = .error (.typeError "got multiple values for keyword argument")) :=
  ⟨fun _ _ _ _ h => f_named_arg_collision h,
   fun _ _ _ _ h1 h2 => f_kwargs_collision h1 h2⟩

theorem C7_collision_raises_witness :
    _f_named_arg (.int 1) idTarget [("x", .int 2)] "x"
      = .error (.typeError "got multiple values for keyword argument")
    ∧ _f_kwargs (.dict [("y", .int 1)]) idTarget [("y", .int 2)]
      = .error (.typeError "got multiple values for keyword argument") :=
  ⟨C7_collision_raises.1 idTarget [("x", .int 2)] "x" (.int 1) (by simp),
   C7_collision_raises.2 idTarget [("y", .int 1)] [("y", .int 2)] "y"
     (by simp) (by simp)⟩

/-- The target `lambda x: x * 10` over ints. -/
def timesTen : PyTarget where
  params := ["x"]
  body := fun env =>
    match lookupKw env "x" with
    | some (.int a) => .ok (.int (a * 10))
    | _ => .error (.typeError "unsupported operand")

/-- C2: for every mapping-shaped input (any of the three shape inputs given
as a mapping from key to payload), the output of `parallel_map` is a mapping
whose keys are the input mapping's keys in their original iteration order,
each key paired with the result of applying the target to that key's payload
— `result[i]` pairs with `index[i]` for all `i` — under every implemented
strategy and every completion order. -/
theorem C2_index_round_trip :
    (∀ (f : PyTarget) (d : List (String × Value))
        (c : Option (List (String × Value))) (r : Value → Value)
        (mode : String) (nw cpu : Nat) (order : List Nat),
      (mode = "process" ∨ mode = "thread" ∨ mode = "serial") →
      1 ≤ nw →
      order.Perm (List.range d.length) →
      (∀ v ∈ d.map Prod.snd, _f_arg v f (c.getD []) = .ok (r v)) →
      parallel_map f (some nw) (some mode) (some (.dict d)) none none none c
          false none cpu order
        = .ok (.dict (d.map (fun p => (p.1, r p.2)))))
    ∧ (∀ (f : PyTarget) (d : List (String × Value))
        (c : Option (List (String × Value))) (r : Value → Value)
        (mode : String) (nw cpu : Nat) (order : List Nat),
      (mode = "process" ∨ mode = "thread" ∨ mode = "serial") →
      1 ≤ nw →
      order.Perm (List.range d.length) →
      (∀ v ∈ d.map Prod.snd, _f_args v f (c.getD []) = .ok (r v)) →
      parallel_map f (some nw) (some mode) none none (some (.dict d)) none c
          false none cpu order
        = .ok (.dict (d.map (fun p => (p.1, r p.2)))))
    ∧ (∀ (f : PyTarget) (d : List (String × Value))
        (c : Option (List (String × Value))) (r : Value → Value)
        (mode : String) (nw cpu : Nat) (order : List Nat),
      (mode = "process" ∨ mode = "thread" ∨ mode = "serial") →
      1 ≤ nw →
      order.Perm (List.range d.length) →
      (∀ v ∈ d.map Prod.snd, _f_kwargs v f (c.getD []) = .ok (r v)) →
      parallel_map f (some nw) (some mode) none none none (some (.dict d)) c
          false none cpu order
        = .ok (.dict (d.map (fun p => (p.1, r p.2))))) := by
  refine ⟨?_, ?_, ?_⟩
  · intro f d c r mode nw cpu order hmode hnw horder hr
    have hwrap : _wrap_f f (some (.dict d)) none none none c
        = .ok (fun a => _f_arg a f (c.getD []), .list (d.map Prod.snd),
            some (d.map Prod.fst)) := rfl
    have hnw' : 0 < (some nw).getD cpu := by simpa using hnw
    have horder' : order.Perm (List.range (d.map Prod.snd).length) := by
      simpa [List.length_map] using horder
    have h := parallel_map_run_ok hwrap hmode hnw' horder' hr
    rw [h]
    show Except.ok (Value.dict ((d.map Prod.fst).zip ((d.map Prod.snd).map r)))
      = Except.ok (Value.dict (d.map (fun p => (p.1, r p.2))))
    rw [zipMapPairs]
  · intro f d c r mode nw cpu order hmode hnw horder hr
    have hwrap : _wrap_f f none (some (.dict d)) none none c
        = .ok (fun a => _f_args a f (c.getD []), .list (d.map Prod.snd),
            some (d.map Prod.fst)) := rfl
    have hnw' : 0 < (some nw).getD cpu := by simpa using hnw
    have horder' : order.Perm (List.range (d.map Prod.snd).length) := by
      simpa [List.length_map] using horder
    have h := parallel_map_run_ok hwrap hmode hnw' horder' hr
    rw [h]
    show Except.ok (Value.dict ((d.map Prod.fst).zip ((d.map Prod.snd).map r)))
      = Except.ok (Value.dict (d.map (fun p => (p.1, r p.2))))
    rw [zipMapPairs]
  · intro f d c r mode nw cpu order hmode hnw horder hr
    have hwrap : _wrap_f f none none none (some (.dict d)) c
        = .ok (fun a => _f_kwargs a f (c.getD []), .list (d.map Prod.snd),
            some (d.map Prod.fst)) := rfl
    have hnw' : 0 < (some nw).getD cpu := by simpa using hnw
    have horder' : order.Perm (List.range (d.map Prod.snd).length) := by
      simpa [List.length_map] using horder
    have h := parallel_map_run_ok hwrap hmode hnw' horder' hr
    rw [h]
    show Except.ok (Value.dict ((d.map Prod.fst).zip ((d.map Prod.snd).map r)))
      = Except.ok (Value.dict (d.map (fun p => (p.1, r p.2))))
    rw [zipMapPairs]

theorem C2_index_round_trip_witness :
    parallel_map timesTen (some 2) (some "thread")
      (some (.dict [("a", .int 1), ("b", .int 2), ("c", .int 3)]))
      none none none none false none 4 [2, 0, 1]
      = .ok (.dict [("a", .int 10), ("b", .int 20), ("c", .int 30)]) := by
  have h := C2_index_round_trip.1 timesTen
    [("a", .int 1), ("b", .int 2), ("c", .int 3)] none
    (fun v => match v with | .int a => .int (a * 10) | v => v)
    "thread" 2 4 [2, 0, 1] (Or.inr (Or.inl rfl)) (by decide) (by decide)
    (by
      intro v hv
      simp only [List.map_cons, List.map_nil, List.mem_cons,
        List.not_mem_nil, or_false] at hv
      rcases hv with rfl | rfl | rfl <;> rfl)
  exact h.trans rfl

/-- C4: for every non-empty list of result records that are all mappings
with identical key sets (order-independent), the deep transpose succeeds
through validation and maps each shared key (in the first record's key
order, the embedding's determinization of Python's set iteration) to the
N-length list of that key's per-record values in original record order,
re-transposing any column that consists exclusively of mappings, recursively;
the spec's nested example transposes as stated; and an empty result list is
returned unchanged by `parallel_map` with no transpose applied. -/
theorem C4_deep_transpose :
    (∀ (d0 : List (String × Value)) (rest : List Value),
      (∀ r ∈ (Value.dict d0 :: rest), ∃ d, r = Value.dict d ∧
        sameKeySet (d.map Prod.fst) (d0.map Prod.fst) = true) →
      _list_of_dicts_to_dict_of_lists (Value.dict d0 :: rest) true
        = ((d0.map Prod.fst).mapM (fun k =>
            (transposeEntry ((Value.dict d0 :: rest).map
              (fun r => valueAtD r k))).map (fun v => (k, v)))).map Value.dict)
    ∧ _list_of_dicts_to_dict_of_lists
        [.dict [("a", .int 1), ("b", .dict [("c", .int 2)])],
         .dict [("a", .int 3), ("b", .dict [("c", .int 4)])]] true
      = .ok (.dict [("a", .list [.int 1, .int 3]),
          ("b", .dict [("c", .list [.int 2, .int 4])])])
    ∧ (∀ (f : PyTarget) (nw : Option Nat) (cpu : Nat) (order : List Nat),
      parallel_map f nw (some "serial") (some (.list [])) none none none none
        true none cpu order = .ok (.list [])) := by
  refine ⟨fun d0 rest h => transpose_homogeneous h, ?_,
    fun f nw cpu order => rfl⟩
  simp [_list_of_dicts_to_dict_of_lists, buildEntries, checkRecords,
    checkRecord, sameKeySet, column, colFn, dictGet, isDict]

theorem C4_deep_transpose_witness :
    _list_of_dicts_to_dict_of_lists
        [.dict [("a", .int 1)], .dict [("a", .int 3)]] true
      = ((([("a", Value.int 1)].map Prod.fst).mapM (fun k =>
          (transposeEntry ([Value.dict [("a", .int 1)],
              Value.dict [("a", .int 3)]].map
            (fun r => valueAtD r k))).map (fun v => (k, v)))).map Value.dict) :=
  C4_deep_transpose.1 [("a", .int 1)] [Value.dict [("a", .int 3)]]
    (by
      intro r hr
      rcases List.mem_cons.mp hr with rfl | hr2
      · exact ⟨[("a", .int 1)], rfl, rfl⟩
      · rcases List.mem_cons.mp hr2 with rfl | hr3
        · exact ⟨[("a", .int 3)], rfl, rfl⟩
        · exact absurd hr3 (List.not_mem_nil r))

/-- C5: for every result list in which some record is not a mapping, or in
which two records have differing key sets (compared order-independently),
the deep transpose raises a heterogeneous-records error (one of the two
validation messages) rather than returning a result — keys are never
silently dropped. -/
theorem C5_heterogeneous_records (records : List Value) (deep : Bool)
    (hbad : (∃ r ∈ records, isDict r = false) ∨
      (∃ r1 ∈ records, ∃ r2 ∈ records, isDict r1 = true ∧ isDict r2 = true ∧
        sameKeySet (keyList r1) (keyList r2) = false)) :
    ∃ e, _list_of_dicts_to_dict_of_lists records deep = .error e ∧
      (e = .exception "outputs are not of type dict" ∨
        e = .exception "different keys across outputs") :=
  transpose_heterogeneous hbad deep

theorem C5_heterogeneous_records_witness :
    ∃ e, _list_of_dicts_to_dict_of_lists
        [.dict [("a", .int 1)], .dict [("b", .int 2)]] true = .error e ∧
      (e = .exception "outputs are not of type dict" ∨
        e = .exception "different keys across outputs") :=
  C5_heterogeneous_records _ true
    (Or.inr ⟨_, List.Mem.head _, _, List.Mem.tail _ (List.Mem.head _),
      rfl, rfl, rfl⟩)

/-- C6: when the number of non-null shape-selecting inputs among
\x7barg_list, arg_lists, kwarg_dicts\x7d is zero or more than one, `parallel_map`
raises a validation error whose identity does not depend on the target
function — i.e. before any task executes — and when exactly one is
supplied, the shape-validation step `_wrap_f` succeeds, so this error is
not raised. -/
theorem C6_shape_validation :
    (∀ (al als kd : Option Value) (an : Option String)
        (c : Option (List (String × Value))) (nw : Option Nat)
        (mode : Option String) (tdl : Bool) (nsub : Option Nat) (cpu : Nat)
        (order : List Nat),
      ([al, als, kd].countP Option.isNone) ≠ 2 →
      ∃ e, ∀ f, parallel_map f nw mode al an als kd c tdl nsub cpu order
        = .error e)
    ∧ (∀ (f : PyTarget) (al als kd : Option Value) (an : Option String)
        (c : Option (List (String × Value))),
      ([al, als, kd].countP Option.isNone) = 2 →
      ∃ g inp idx, _wrap_f f al als an kd c = .ok (g, inp, idx)) := by
  constructor
  · intro al als kd an c nw mode tdl nsub cpu order h
    by_cases hsub : (nsub.isSome = true ∧ ¬ (mode.getD "process") = "nested")
    · refine ⟨.exception "n_subworkers_per_worker only valid for nested mode",
        fun f => ?_⟩
      simp only [parallel_map, if_pos hsub]
    · refine ⟨.exception "must specify arg_list, arg_lists, or kwarg_dicts",
        fun f => ?_⟩
      simp only [parallel_map, if_neg hsub, wrap_f_count_err h]
  · intro f al als kd an c h
    obtain ⟨inp, idx, hall⟩ := wrap_f_shape al als kd an c h
    obtain ⟨g, hg⟩ := hall f
    exact ⟨g, inp, idx, hg⟩

theorem C6_shape_validation_witness :
    (∃ e, ∀ f, parallel_map f none none (some (.list [.int 1])) none
        (some (.list [.list [.int 1]])) none none false none 1 []
      = .error e)
    ∧ (∃ g inp idx, _wrap_f idTarget (some (.list [.int 1])) none none none
        none = .ok (g, inp, idx)) :=
  ⟨C6_shape_validation.1 _ _ _ _ _ _ _ _ _ _ _ (by decide),
   C6_shape_validation.2 idTarget _ _ _ _ _ (by decide)⟩

/-- C8: for every payload list and every implemented strategy, if the
wrapped target raises on at least one payload then the `parallel_map` call
itself raises and no result sequence or mapping is returned. -/
theorem C8_fail_fast (f : PyTarget) (al als kd : Option Value)
    (an : Option String) (c : Option (List (String × Value)))
    (g : Value → Except PyError Value) (inputs : List Value)
    (index : Option (List String)) (nw : Option Nat) (mode : String)
    (tdl : Bool) (nsub : Option Nat) (cpu : Nat) (order : List Nat)
    (hwrap : _wrap_f f al als an kd c = .ok (g, .list inputs, index))
    (hmode : mode = "process" ∨ mode = "thread" ∨ mode = "serial")
    (horder : order.Perm (List.range inputs.length))
    (hfail : ∃ x ∈ inputs, ∃ e, g x = .error e) :
    ∃ e', parallel_map f nw (some mode) al an als kd c tdl nsub cpu order
      = .error e' :=
  parallel_map_run_err hwrap hmode horder hfail

/-- The target `lambda x: raise if x == 0 else x`. -/
def failTarget : PyTarget where
  params := ["x"]
  body := fun env =>
    match lookupKw env "x" with
    | some (.int 0) => .error (.exception "task failed")
    | some v => .ok v
    | none => .error (.exception "unbound parameter")

theorem C8_fail_fast_witness :
    ∃ e', parallel_map failTarget (some 2) (some "process")
      (some (.list [.int 1, .int 0])) none none none none false none 4 [0, 1]
      = .error e' :=
  C8_fail_fast failTarget _ _ _ _ _ _ [.int 1, .int 0] none (some 2) "process"
    false none 4 [0, 1] rfl (Or.inl rfl) (by decide)
    ⟨.int 0, List.Mem.tail _ (List.Mem.head _), .exception "task failed", rfl⟩

/-- C9: for every call that selects the nested-process-of-threads strategy
(and supplies a well-formed task shape), `parallel_map` fails with an
explicit not-implemented error whose identity does not depend on the target
function — so the target is never invoked on any payload. -/
theorem C9_nested_not_implemented (al als kd : Option Value)
    (an : Option String) (c : Option (List (String × Value)))
    (nw : Option Nat) (tdl : Bool) (nsub : Option Nat) (cpu : Nat)
    (order : List Nat)
    (h : ([al, als, kd].countP Option.isNone) = 2) :
    ∃ s, ∀ f, parallel_map f nw (some "nested") al an als kd c tdl nsub cpu
      order = .error (.notImplemented s) := by
  obtain ⟨inp, idx, hall⟩ := wrap_f_shape al als kd an c h
  have hsub : ¬(nsub.isSome = true ∧ ¬("nested" : String) = "nested") := by
    rintro ⟨_, hne⟩
    exact hne rfl
  by_cases htdl : (tdl = true ∧ idx.isSome = true)
  · refine ⟨"collapsing dict keys with indexed inputs", fun f => ?_⟩
    obtain ⟨g, hg⟩ := hall f
    simp only [parallel_map, Option.getD_some, if_neg hsub, hg, if_pos htdl]
  · refine ⟨"", fun f => ?_⟩
    obtain ⟨g, hg⟩ := hall f
    have e1 : (("nested" : String) = "process") = False := eq_false (by decide)
    have e2 : (("nested" : String) = "thread") = False := eq_false (by decide)
    have e3 : (("nested" : String) = "serial") = False := eq_false (by decide)
    have e4 : (("nested" : String) = "nested") = True := eq_true rfl
    simp only [parallel_map, Option.getD_some, if_neg hsub, hg, if_neg htdl,
      e1, e2, e3, e4, if_false, if_true]

theorem C9_nested_not_implemented_witness :
    ∃ s, ∀ f, parallel_map f none (some "nested") (some (.list [.int 1]))
      none none none none false none 1 [] = .error (.notImplemented s) :=
  C9_nested_not_implemented _ _ _ _ _ _ _ _ _ _ (by decide)
